import Mathlib

/-!
Verification development for the ASL-recognizer model-selection core
(`my_model_selectors.py`, `my_recognizer.py`).

Embedding conventions:
* A feature frame is a vector of rationals (floats are idealised as `ℚ`);
  an observation matrix `X` is a list of frames; a segment-length vector is a
  list of naturals.
* The external trainer (`hmmlearn.hmm.GaussianHMM` with fixed
  `covariance_type`, `n_iter` and `random_state`) is an opaque deterministic
  oracle `HMMEnv`: `fitOk n X lengths` says whether
  `GaussianHMM(n_components=n, ...).fit(X, lengths)` succeeds (a failure being
  the `ValueError`-style FitError the source catches), and
  `score n Xtr Ltr Xs Ls` is the log-likelihood that the model fitted on
  `(Xtr, Ltr)` with `n` states assigns to `(Xs, Ls)`, `none` being a
  ScoreError.  With a fixed random seed both calls are deterministic, which is
  why they are functions.
* `np.log` on a row count is the opaque real function `nplog : Nat → ℚ`
  (only the value the oracle returns matters to the selection logic).
* Python exceptions caught as `ValueError` become `Option`; the single spot
  where an exception escapes a `select()` body (the `KFold` split call in
  `SelectorCV.select`, line 152/153, which is outside every `try`) is modelled
  with `Except Unit`.
-/

set_option autoImplicit false

namespace ASL

/-- A single observation frame (feature vector). -/
abbrev Frame := List ℚ

/-- An observation matrix paired with its segment lengths: the `(X, lengths)`
pairs the source passes around. -/
abbrev XL := List Frame × List Nat

/-- Opaque deterministic trainer/scorer oracle standing for `GaussianHMM`
(with the fixed `covariance_type="diag"`, `n_iter=1000`, `random_state`)
plus `np.log`. -/
structure HMMEnv where
  fitOk : Nat → List Frame → List Nat → Bool
  score : Nat → List Frame → List Nat → List Frame → List Nat → Option ℚ
  nplog : Nat → ℚ

/-- A fitted `GaussianHMM`, identified by its state count and the data it was
fitted on (the fit is deterministic given the fixed random state). -/
structure HMMModel where
  n_components : Nat
  trainX : List Frame
  trainLengths : List Nat
deriving DecidableEq

/-- The attributes a `ModelSelector` instance holds after `__init__`
(`my_model_selectors.py` lines 16-29).  `self.words` is only read through
`self.sequences`, so it is not repeated here. -/
structure ModelSelectorCtx where
  hwords : List (String × XL)
  sequences : List (List Frame)
  X : List Frame
  lengths : List Nat
  this_word : String
  n_constant : Nat := 3
  min_n_components : Nat := 2
  max_n_components : Nat := 10

/-- `ModelSelector.base_model` (lines 34-47): fit on the word's own data and
absorb every failure into `None` (the bare `except:`). -/
def base_model (env : HMMEnv) (ctx : ModelSelectorCtx) (num_states : Nat) :
    Option HMMModel :=
  if env.fitOk num_states ctx.X ctx.lengths then
    some ⟨num_states, ctx.X, ctx.lengths⟩
  else
    none

/-- `SelectorConstant.select` (lines 55-61). -/
def constantSelect (env : HMMEnv) (ctx : ModelSelectorCtx) : Option HMMModel :=
  base_model env ctx ctx.n_constant

/-- The candidate state counts the `while cur_comp_count <= max` loops visit:
`lo, lo+1, ..., hi` (empty when `hi < lo`). -/
def candRange (lo hi : Nat) : List Nat :=
  List.range' lo (hi + 1 - lo)

/-- One step of a running-best accumulator that replaces the best
`(score, tag)` pair when the new score is strictly larger (the
`if new > best:` update used by DIC, CV and the recognizer); a `none` score is
a candidate whose `try` body raised before reaching the comparison. -/
def stepGT {α : Type} (st : ℚ × α) (it : α × Option ℚ) : ℚ × α :=
  match it.2 with
  | none => st
  | some v => if st.1 < v then (v, it.1) else st

/-- Run the strictly-greater running-best accumulator over a candidate list. -/
def runBestGT {α : Type} (st : ℚ × α) (items : List (α × Option ℚ)) : ℚ × α :=
  items.foldl stepGT st

/-- One step of the strictly-smaller running-best accumulator (the
`if bic < best_bic:` update used by BIC). -/
def stepLT {α : Type} (st : ℚ × α) (it : α × Option ℚ) : ℚ × α :=
  match it.2 with
  | none => st
  | some v => if v < st.1 then (v, it.1) else st

/-- Run the strictly-smaller running-best accumulator over a candidate list. -/
def runBestLT {α : Type} (st : ℚ × α) (items : List (α × Option ℚ)) : ℚ × α :=
  items.foldl stepLT st

/-- The `try` body of `SelectorBIC.select` for one candidate `n`
(lines 82-90): fit, score, and compute
`bic = (-2 * logL) + (p_val * np.log(len(self.X)))` with
`p_val = (n ** 2) + (2 * n * sum(self.lengths)) - 1`; `none` means the body
raised a `ValueError` (fit or score failure) and the loop moved on. -/
def bicCand (env : HMMEnv) (ctx : ModelSelectorCtx) (n : Nat) : Option ℚ :=
  if env.fitOk n ctx.X ctx.lengths then
    match env.score n ctx.X ctx.lengths ctx.X ctx.lengths with
    | some logL =>
        some ((-2 * logL) +
          ((((n : ℚ) ^ 2) + (2 * (n : ℚ) * (ctx.lengths.sum : ℚ)) - 1) *
            env.nplog ctx.X.length))
    | none => none
  else
    none

/-- `SelectorBIC.select` (lines 71-95): scan `[min_n, max_n]` tracking the
minimum BIC from the sentinel `100000000` with strict `<`, then re-fit the
winning count through `base_model`. -/
def bicSelect (env : HMMEnv) (ctx : ModelSelectorCtx) : Option HMMModel :=
  base_model env ctx
    (runBestLT ((100000000 : ℚ), ctx.min_n_components)
      ((candRange ctx.min_n_components ctx.max_n_components).map
        (fun n => (n, bicCand env ctx n)))).2

/-- The other words DIC scores a candidate against: every entry of
`self.hwords` except `self.this_word` (lines 120-123), in dict insertion
order. -/
def otherWords (ctx : ModelSelectorCtx) : List (String × XL) :=
  ctx.hwords.filter (fun p => !(p.1 == ctx.this_word))

/-- The inner `for w, (alt_X, alt_lengths) in self.hwords.items():` loop of
`SelectorDIC.select`: collect the candidate's log-likelihood on every other
word, aborting the whole list (and hence, at the caller, the whole candidate)
as soon as one `score` call raises. -/
def altScores (env : HMMEnv) (ctx : ModelSelectorCtx) (n : Nat) :
    List (String × XL) → Option (List ℚ)
  | [] => some []
  | p :: rest =>
    match env.score n ctx.X ctx.lengths p.2.1 p.2.2 with
    | none => none
    | some v =>
      match altScores env ctx n rest with
      | none => none
      | some vs => some (v :: vs)

/-- Arithmetic mean of a list of rationals; `none` stands for `np.mean([])`,
which is `NaN` — every comparison against `NaN` is false, exactly like a
candidate that never reaches the update. -/
def meanQ (l : List ℚ) : Option ℚ :=
  if l.isEmpty then none else some (l.sum / (l.length : ℚ))

/-- The `try` body of `SelectorDIC.select` for one candidate `n`
(lines 115-128): fit, score the word itself, score every other word, and form
`dic = logL - meanAltLog`; `none` means the body raised (fit failure, a score
failure on the word itself or on ANY other word) or that the comparison
against `NaN` failed, so the loop left the running best unchanged. -/
def dicCand (env : HMMEnv) (ctx : ModelSelectorCtx) (n : Nat) : Option ℚ :=
  if env.fitOk n ctx.X ctx.lengths then
    match env.score n ctx.X ctx.lengths ctx.X ctx.lengths with
    | some logL =>
      match altScores env ctx n (otherWords ctx) with
      | some alts =>
        match meanQ alts with
        | some m => some (logL - m)
        | none => none
      | none => none
    | none => none
  else
    none

/-- `SelectorDIC.select` (lines 108-133): scan `[min_n, max_n]` tracking the
maximum DIC from the sentinel `-100000000` with strict `>`, then re-fit the
winning count through `base_model`. -/
def dicSelect (env : HMMEnv) (ctx : ModelSelectorCtx) : Option HMMModel :=
  base_model env ctx
    (runBestGT ((-100000000 : ℚ), ctx.min_n_components)
      ((candRange ctx.min_n_components ctx.max_n_components).map
        (fun n => (n, dicCand env ctx n)))).2

/-- Modelled from the spec: `combine_sequences` lives in `asl_utils`, which is
part of this repository but not under `src/`.  Per the spec it builds a
subset "from the train-fold sequence indices via concatenation (producing a
train (X, lengths) pair)": the selected sequences' frames concatenated, with
one length entry per selected sequence. -/
def combine_sequences (idx : List Nat) (sequences : List (List Frame)) : XL :=
  ((idx.map (fun i => sequences.getD i [])).flatten,
   idx.map (fun i => (sequences.getD i []).length))

/-- `split_count` in `SelectorCV.select` (lines 149-151): 3 folds normally,
the sequence count when a word has fewer than 3 sequences. -/
def cvSplitCount (sequences : List (List Frame)) : Nat :=
  if sequences.length < 3 then sequences.length else 3

/-- `sklearn.model_selection.KFold(n_splits=k).split` on `n` samples,
modelled from its documented deterministic behaviour (`shuffle=False`):
consecutive test blocks, the first `n % k` folds one element larger, each
yielded pair being `(train_indices, test_indices)`.  The constructor/split
raise `ValueError` when `k < 2` or `k` exceeds the sample count; that
exception is NOT caught by `SelectorCV.select` (the call sits outside every
`try`), hence the `Except`. -/
def kfoldSplit (k n : Nat) : Except Unit (List (List Nat × List Nat)) :=
  if k < 2 then Except.error ()
  else if n < k then Except.error ()
  else Except.ok ((List.range k).map (fun i =>
    ((List.range n).filter (fun j =>
        decide (j < i * (n / k) + min i (n % k)) ||
        decide (i * (n / k) + min i (n % k) + (n / k +
          (if i < n % k then 1 else 0)) ≤ j)),
     (List.range (n / k + (if i < n % k then 1 else 0))).map
        (fun j => i * (n / k) + min i (n % k) + j))))

/-- The pair the fold's candidate is FITTED on, line 154:
`combine_sequences(cv_train_idx, self.sequences)`. -/
def cvFoldFitPair (sequences : List (List Frame)) (fold : List Nat × List Nat) :
    XL :=
  combine_sequences fold.1 sequences

/-- The pair the fold's candidate is SCORED against, line 158: the source
also passes `cv_train_idx` here (not `cv_test_idx`). -/
def cvFoldScorePair (sequences : List (List Frame))
    (fold : List Nat × List Nat) : XL :=
  combine_sequences fold.1 sequences

/-- The inner fold loop of `SelectorCV.select` for one candidate `n`
(lines 153-164): for each `(cv_train_idx, cv_test_idx)` pair, build the train
pair, guard `len(train_X) >= n`, fit on the train pair and score against the
pair of line 158, collecting the log-likelihoods in order; a fold whose `try`
body raises contributes nothing. -/
def cvLogLs (env : HMMEnv) (ctx : ModelSelectorCtx) (n : Nat) :
    List (List Nat × List Nat) → List ℚ
  | [] => []
  | fold :: rest =>
    if n ≤ (cvFoldFitPair ctx.sequences fold).1.length then
      if env.fitOk n (cvFoldFitPair ctx.sequences fold).1
          (cvFoldFitPair ctx.sequences fold).2 then
        match env.score n (cvFoldFitPair ctx.sequences fold).1
            (cvFoldFitPair ctx.sequences fold).2
            (cvFoldScorePair ctx.sequences fold).1
            (cvFoldScorePair ctx.sequences fold).2 with
        | some logL => logL :: cvLogLs env ctx n rest
        | none => cvLogLs env ctx n rest
      else cvLogLs env ctx n rest
    else cvLogLs env ctx n rest

/-- The per-candidate value of `SelectorCV.select`: the mean fold
log-likelihood when at least one fold scored (`if len(logLs) > 0:`), `none`
otherwise (no update for this `n`). -/
def cvCand (env : HMMEnv) (ctx : ModelSelectorCtx) (n : Nat)
    (folds : List (List Nat × List Nat)) : Option ℚ :=
  meanQ (cvLogLs env ctx n folds)

/-- `SelectorCV.select` (lines 141-171).  The `KFold(...).split(...)` call is
re-made on every loop iteration in the source with identical, deterministic
results, so it is hoisted out here; it raises (uncaught) on the first
iteration exactly when it raises at all, and it is never reached when the
range is empty (`min_n > max_n`), whence the first branch.  The running best
starts from the sentinel `-100000` and is re-fitted through `base_model` on
the full unsplit data. -/
def cvSelect (env : HMMEnv) (ctx : ModelSelectorCtx) :
    Except Unit (Option HMMModel) :=
  if ctx.max_n_components < ctx.min_n_components then
    Except.ok (base_model env ctx ctx.min_n_components)
  else
    match kfoldSplit (cvSplitCount ctx.sequences) ctx.sequences.length with
    | Except.error e => Except.error e
    | Except.ok folds =>
      Except.ok (base_model env ctx
        (runBestGT ((-100000 : ℚ), ctx.min_n_components)
          ((candRange ctx.min_n_components ctx.max_n_components).map
            (fun n => (n, cvCand env ctx n folds)))).2)

/-- The body of the `for m_key in models:` loop of `recognize`
(`my_recognizer.py` lines 30-39), acting on the state
`(p_hash, best_score, best_word)`: a `ValueError` from `score` leaves the
state untouched, a success records the log-likelihood in the item's mapping
and updates the running best on strict `>`. -/
def recogStep (item : XL) (st : List (String × ℚ) × ℚ × Option String)
    (wm : String × (XL → Option ℚ)) :
    List (String × ℚ) × ℚ × Option String :=
  match wm.2 item with
  | none => st
  | some logL =>
    (st.1 ++ [(wm.1, logL)],
     if st.2.1 < logL then (logL, some wm.1) else st.2)

/-- One test item's pass over all models (lines 27-39):
`p_hash = {}`, `best_score = -1000000000`, `best_word = None`, then the model
loop.  A model is its opaque scoring capability; the association list is the
dict in insertion order. -/
def scoreItem (models : List (String × (XL → Option ℚ))) (item : XL) :
    List (String × ℚ) × ℚ × Option String :=
  models.foldl (recogStep item) ([], (-1000000000 : ℚ), none)

/-- `recognize` (lines 5-42): per test item, the word → log-likelihood
mapping and the best-guess word, both ordered by test-item index. -/
def recognize (models : List (String × (XL → Option ℚ)))
    (test_set : List XL) :
    List (List (String × ℚ)) × List (Option String) :=
  (test_set.map (fun it => (scoreItem models it).1),
   test_set.map (fun it => (scoreItem models it).2.2))

/-- The spec's own wording of the BIC score (§4.3): `BIC = −2·logL + p·ln(N)`
with `p = n*n + 2*n*T - 1`, `T = sum(lengths)`, `N` the row count of `X`. -/
def bicScoreSpec (logL : ℚ) (n T : Nat) (lnN : ℚ) : ℚ :=
  -2 * logL + ((n : ℚ) * (n : ℚ) + 2 * (n : ℚ) * (T : ℚ) - 1) * lnN

/-- The spec's own wording of the DIC score (§4.4):
`DIC = logL − meanAltLog` with `meanAltLog = mean(other words' scores)`. -/
def dicScoreSpec (logL : ℚ) (alts : List ℚ) : ℚ :=
  logL - alts.sum / (alts.length : ℚ)

/-! ### Concrete instances used to exercise the theorems

The data below describes small but fully realisable runs: `X = [[0]]` has a
single row, so `np.log(len(X)) = ln 1 = 0`, which is what `nplog` returns on
every input it is actually applied to; fit failures and score failures are
within the opaque trainer's documented contract, as are arbitrarily negative
log-likelihoods. -/

/-- Trainer for which only `n = 3` fits and every score is the very bad
log-likelihood `-1e8`. -/
def envBicSat : HMMEnv :=
  { fitOk := fun n _ _ => decide (n = 3)
    score := fun _ _ _ _ _ => some (-100000000)
    nplog := fun _ => 0 }

/-- A one-word corpus whose `X` has a single row, searched over `[2, 3]`. -/
def ctxBicSat : ModelSelectorCtx :=
  { hwords := [("A", ([[0]], [1]))]
    sequences := []
    X := [[0]]
    lengths := [1]
    this_word := "A"
    min_n_components := 2
    max_n_components := 3 }

/-- Trainer for which everything fits and every score is `0`. -/
def envAllFit : HMMEnv :=
  { fitOk := fun _ _ _ => true
    score := fun _ _ _ _ _ => some 0
    nplog := fun _ => 0 }

/-- A two-word corpus ("A" with two 2-frame sequences, "B" a 1-frame word),
searched over `[2, 3]`. -/
def ctxTwoWords : ModelSelectorCtx :=
  { hwords := [("A", ([[0], [0], [1], [1]], [2, 2])), ("B", ([[5]], [1]))]
    sequences := [[[0], [0]], [[1], [1]]]
    X := [[0], [0], [1], [1]]
    lengths := [2, 2]
    this_word := "A"
    min_n_components := 2
    max_n_components := 3 }

/-- Trainer for which only `n = 3` fits and every score raises. -/
def envLoneFitScoreFail : HMMEnv :=
  { fitOk := fun n _ _ => decide (n = 3)
    score := fun _ _ _ _ _ => none
    nplog := fun _ => 0 }

/-- Trainer for which only `n = 2` fits and every score is `0`. -/
def envLoneFit : HMMEnv :=
  { fitOk := fun n _ _ => decide (n = 2)
    score := fun _ _ _ _ _ => some 0
    nplog := fun _ => 0 }

/-- Trainer for which everything fits, scoring data with `lengths = [1]`
(the word "B" of `ctxTwoWords`) raises, and every other score is `0`. -/
def envScoreFailB : HMMEnv :=
  { fitOk := fun _ _ _ => true
    score := fun _ _ _ _ Ls => if Ls = [1] then none else some 0
    nplog := fun _ => 0 }

/-- A context whose `n_constant` (11) lies outside its `[2, 10]` search
range. -/
def ctxConstant11 : ModelSelectorCtx :=
  { hwords := [("A", ([[0]], [1]))]
    sequences := []
    X := [[0]]
    lengths := [1]
    this_word := "A"
    n_constant := 11 }

/-! ### Generic facts about the running-best accumulators -/

theorem stepGT_none {α : Type} (st : ℚ × α) (it : α × Option ℚ)
    (h : it.2 = none) : stepGT st it = st := by
  simp [stepGT, h]

theorem stepGT_some {α : Type} (st : ℚ × α) (it : α × Option ℚ) (v : ℚ)
    (h : it.2 = some v) :
    stepGT st it = if st.1 < v then (v, it.1) else st := by
  simp [stepGT, h]

theorem stepGT_fst_mono {α : Type} (st : ℚ × α) (it : α × Option ℚ) :
    st.1 ≤ (stepGT st it).1 := by
  cases hit : it.2 with
  | none => simp [stepGT, hit]
  | some v =>
    by_cases hlt : st.1 < v
    · simp [stepGT, hit, if_pos hlt]
      exact le_of_lt hlt
    · simp [stepGT, hit, if_neg hlt]

theorem stepGT_cases {α : Type} (st : ℚ × α) (it : α × Option ℚ) :
    stepGT st it = st ∨ st.1 < (stepGT st it).1 := by
  cases hit : it.2 with
  | none => exact Or.inl (stepGT_none st it hit)
  | some v =>
    by_cases hlt : st.1 < v
    · right
      simp [stepGT, hit, if_pos hlt]
      exact hlt
    · left
      simp [stepGT, hit, if_neg hlt]

theorem runBestGT_nil {α : Type} (st : ℚ × α) : runBestGT st [] = st := rfl

theorem runBestGT_cons {α : Type} (st : ℚ × α) (it : α × Option ℚ)
    (l : List (α × Option ℚ)) :
    runBestGT st (it :: l) = runBestGT (stepGT st it) l := rfl

theorem runBestGT_append {α : Type} (st : ℚ × α)
    (l1 l2 : List (α × Option ℚ)) :
    runBestGT st (l1 ++ l2) = runBestGT (runBestGT st l1) l2 := by
  simp [runBestGT, List.foldl_append]

theorem runBestGT_noupdate {α : Type} {st : ℚ × α}
    {items : List (α × Option ℚ)}
    (h : ∀ it ∈ items, ∀ v, it.2 = some v → ¬ st.1 < v) :
    runBestGT st items = st := by
  induction items with
  | nil => rfl
  | cons it l ih =>
    have hst : stepGT st it = st := by
      cases hit : it.2 with
      | none => exact stepGT_none st it hit
      | some v =>
        rw [stepGT_some st it v hit,
          if_neg (h it (List.mem_cons_self it l) v hit)]
    rw [runBestGT_cons, hst]
    exact ih (fun it' h' v hv => h it' (List.mem_cons_of_mem it h') v hv)

theorem runBestGT_fst_mono {α : Type} (st : ℚ × α)
    (items : List (α × Option ℚ)) : st.1 ≤ (runBestGT st items).1 := by
  induction items generalizing st with
  | nil => exact le_refl _
  | cons it l ih =>
    rw [runBestGT_cons]
    exact le_trans (stepGT_fst_mono st it) (ih (stepGT st it))

theorem runBestGT_stay_lt {α : Type} {c : ℚ} {st : ℚ × α}
    {items : List (α × Option ℚ)} (h0 : st.1 < c)
    (h : ∀ it ∈ items, ∀ v, it.2 = some v → v < c) :
    (runBestGT st items).1 < c := by
  induction items generalizing st with
  | nil => exact h0
  | cons it l ih =>
    rw [runBestGT_cons]
    have hstep : (stepGT st it).1 < c := by
      cases hit : it.2 with
      | none => rw [stepGT_none st it hit]; exact h0
      | some v =>
        rw [stepGT_some st it v hit]
        by_cases hlt : st.1 < v
        · rw [if_pos hlt]
          exact h it (List.mem_cons_self it l) v hit
        · rw [if_neg hlt]
          exact h0
    exact ih hstep (fun it' h' v hv => h it' (List.mem_cons_of_mem it h') v hv)

theorem runBestGT_result {α : Type} (st : ℚ × α)
    (items : List (α × Option ℚ)) :
    runBestGT st items = st ∨
      ∃ it ∈ items, it.2 = some (runBestGT st items).1 ∧
        it.1 = (runBestGT st items).2 ∧ st.1 < (runBestGT st items).1 := by
  induction items generalizing st with
  | nil => exact Or.inl rfl
  | cons it l ih =>
    rw [runBestGT_cons]
    cases hit : it.2 with
    | none =>
      rw [stepGT_none st it hit]
      rcases ih st with h | ⟨it', hmem, h1, h2, h3⟩
      · exact Or.inl h
      · exact Or.inr ⟨it', List.mem_cons_of_mem it hmem, h1, h2, h3⟩
    | some v =>
      by_cases hlt : st.1 < v
      · rw [stepGT_some st it v hit, if_pos hlt]
        rcases ih (v, it.1) with h | ⟨it', hmem, h1, h2, h3⟩
        · rw [h]
          exact Or.inr ⟨it, List.mem_cons_self it l, hit, rfl, hlt⟩
        · exact Or.inr ⟨it', List.mem_cons_of_mem it hmem, h1, h2,
            lt_trans hlt h3⟩
      · rw [stepGT_some st it v hit, if_neg hlt]
        rcases ih st with h | ⟨it', hmem, h1, h2, h3⟩
        · exact Or.inl h
        · exact Or.inr ⟨it', List.mem_cons_of_mem it hmem, h1, h2, h3⟩

theorem runBestGT_strict {α : Type} {st : ℚ × α}
    {items : List (α × Option ℚ)}
    (h : ∃ it ∈ items, ∃ v, it.2 = some v ∧ st.1 < v) :
    st.1 < (runBestGT st items).1 := by
  induction items generalizing st with
  | nil =>
    rcases h with ⟨it, hmem, _⟩
    exact absurd hmem (List.not_mem_nil it)
  | cons it l ih =>
    rcases h with ⟨it0, hmem, v, hv, hlt⟩
    rw [runBestGT_cons]
    rcases List.mem_cons.mp hmem with rfl | hmem'
    · have hstep : stepGT st it0 = (v, it0.1) := by
        rw [stepGT_some st it0 v hv, if_pos hlt]
      rw [hstep]
      exact lt_of_lt_of_le hlt (runBestGT_fst_mono (v, it0.1) l)
    · rcases stepGT_cases st it with heq | hgt
      · rw [heq]
        exact ih ⟨it0, hmem', v, hv, hlt⟩
      · exact lt_of_lt_of_le hgt (runBestGT_fst_mono (stepGT st it) l)

theorem stepLT_none {α : Type} (st : ℚ × α) (it : α × Option ℚ)
    (h : it.2 = none) : stepLT st it = st := by
  simp [stepLT, h]

theorem stepLT_some {α : Type} (st : ℚ × α) (it : α × Option ℚ) (v : ℚ)
    (h : it.2 = some v) :
    stepLT st it = if v < st.1 then (v, it.1) else st := by
  simp [stepLT, h]

theorem stepLT_fst_mono {α : Type} (st : ℚ × α) (it : α × Option ℚ) :
    (stepLT st it).1 ≤ st.1 := by
  cases hit : it.2 with
  | none => simp [stepLT, hit]
  | some v =>
    by_cases hlt : v < st.1
    · simp [stepLT, hit, if_pos hlt]
      exact le_of_lt hlt
    · simp [stepLT, hit, if_neg hlt]

theorem stepLT_cases {α : Type} (st : ℚ × α) (it : α × Option ℚ) :
    stepLT st it = st ∨ (stepLT st it).1 < st.1 := by
  cases hit : it.2 with
  | none => exact Or.inl (stepLT_none st it hit)
  | some v =>
    by_cases hlt : v < st.1
    · right
      simp [stepLT, hit, if_pos hlt]
      exact hlt
    · left
      simp [stepLT, hit, if_neg hlt]

theorem runBestLT_nil {α : Type} (st : ℚ × α) : runBestLT st [] = st := rfl

theorem runBestLT_cons {α : Type} (st : ℚ × α) (it : α × Option ℚ)
    (l : List (α × Option ℚ)) :
    runBestLT st (it :: l) = runBestLT (stepLT st it) l := rfl

theorem runBestLT_append {α : Type} (st : ℚ × α)
    (l1 l2 : List (α × Option ℚ)) :
    runBestLT st (l1 ++ l2) = runBestLT (runBestLT st l1) l2 := by
  simp [runBestLT, List.foldl_append]

theorem runBestLT_noupdate {α : Type} {st : ℚ × α}
    {items : List (α × Option ℚ)}
    (h : ∀ it ∈ items, ∀ v, it.2 = some v → ¬ v < st.1) :
    runBestLT st items = st := by
  induction items with
  | nil => rfl
  | cons it l ih =>
    have hst : stepLT st it = st := by
      cases hit : it.2 with
      | none => exact stepLT_none st it hit
      | some v =>
        rw [stepLT_some st it v hit,
          if_neg (h it (List.mem_cons_self it l) v hit)]
    rw [runBestLT_cons, hst]
    exact ih (fun it' h' v hv => h it' (List.mem_cons_of_mem it h') v hv)

theorem runBestLT_fst_mono {α : Type} (st : ℚ × α)
    (items : List (α × Option ℚ)) : (runBestLT st items).1 ≤ st.1 := by
  induction items generalizing st with
  | nil => exact le_refl _
  | cons it l ih =>
    rw [runBestLT_cons]
    exact le_trans (ih (stepLT st it)) (stepLT_fst_mono st it)

theorem runBestLT_stay_gt {α : Type} {c : ℚ} {st : ℚ × α}
    {items : List (α × Option ℚ)} (h0 : c < st.1)
    (h : ∀ it ∈ items, ∀ v, it.2 = some v → c < v) :
    c < (runBestLT st items).1 := by
  induction items generalizing st with
  | nil => exact h0
  | cons it l ih =>
    rw [runBestLT_cons]
    have hstep : c < (stepLT st it).1 := by
      cases hit : it.2 with
      | none => rw [stepLT_none st it hit]; exact h0
      | some v =>
        rw [stepLT_some st it v hit]
        by_cases hlt : v < st.1
        · rw [if_pos hlt]
          exact h it (List.mem_cons_self it l) v hit
        · rw [if_neg hlt]
          exact h0
    exact ih hstep (fun it' h' v hv => h it' (List.mem_cons_of_mem it h') v hv)

theorem runBestLT_result {α : Type} (st : ℚ × α)
    (items : List (α × Option ℚ)) :
    runBestLT st items = st ∨
      ∃ it ∈ items, it.2 = some (runBestLT st items).1 ∧
        it.1 = (runBestLT st items).2 ∧ (runBestLT st items).1 < st.1 := by
  induction items generalizing st with
  | nil => exact Or.inl rfl
  | cons it l ih =>
    rw [runBestLT_cons]
    cases hit : it.2 with
    | none =>
      rw [stepLT_none st it hit]
      rcases ih st with h | ⟨it', hmem, h1, h2, h3⟩
      · exact Or.inl h
      · exact Or.inr ⟨it', List.mem_cons_of_mem it hmem, h1, h2, h3⟩
    | some v =>
      by_cases hlt : v < st.1
      · rw [stepLT_some st it v hit, if_pos hlt]
        rcases ih (v, it.1) with h | ⟨it', hmem, h1, h2, h3⟩
        · rw [h]
          exact Or.inr ⟨it, List.mem_cons_self it l, hit, rfl, hlt⟩
        · exact Or.inr ⟨it', List.mem_cons_of_mem it hmem, h1, h2,
            lt_trans h3 hlt⟩
      · rw [stepLT_some st it v hit, if_neg hlt]
        rcases ih st with h | ⟨it', hmem, h1, h2, h3⟩
        · exact Or.inl h
        · exact Or.inr ⟨it', List.mem_cons_of_mem it hmem, h1, h2, h3⟩

theorem runBestLT_strict {α : Type} {st : ℚ × α}
    {items : List (α × Option ℚ)}
    (h : ∃ it ∈ items, ∃ v, it.2 = some v ∧ v < st.1) :
    (runBestLT st items).1 < st.1 := by
  induction items generalizing st with
  | nil =>
    rcases h with ⟨it, hmem, _⟩
    exact absurd hmem (List.not_mem_nil it)
  | cons it l ih =>
    rcases h with ⟨it0, hmem, v, hv, hlt⟩
    rw [runBestLT_cons]
    rcases List.mem_cons.mp hmem with rfl | hmem'
    · have hstep : stepLT st it0 = (v, it0.1) := by
        rw [stepLT_some st it0 v hv, if_pos hlt]
      rw [hstep]
      exact lt_of_le_of_lt (runBestLT_fst_mono (v, it0.1) l) hlt
    · rcases stepLT_cases st it with heq | hgt
      · rw [heq]
        exact ih ⟨it0, hmem', v, hv, hlt⟩
      · exact lt_of_le_of_lt (runBestLT_fst_mono (stepLT st it) l) hgt

/-! ### Helper facts about the embedded selectors -/

theorem mem_candRange {n lo hi : Nat} :
    n ∈ candRange lo hi ↔ lo ≤ n ∧ n ≤ hi := by
  unfold candRange
  rw [List.mem_range'_1]
  omega

theorem candRange_nonempty {lo hi : Nat} (h : candRange lo hi ≠ []) :
    lo ≤ hi := by
  by_contra hc
  have hlen : (candRange lo hi).length = hi + 1 - lo :=
    List.length_range' lo 1 (hi + 1 - lo)
  have : candRange lo hi = [] := List.length_eq_zero.mp (by omega)
  exact h this

theorem base_model_some {env : HMMEnv} {ctx : ModelSelectorCtx}
    {num_states : Nat} {m : HMMModel}
    (h : base_model env ctx num_states = some m) :
    m = ⟨num_states, ctx.X, ctx.lengths⟩ := by
  unfold base_model at h
  by_cases hf : env.fitOk num_states ctx.X ctx.lengths
  · rw [if_pos hf] at h
    exact (Option.some.inj h).symm
  · rw [if_neg hf] at h
    exact absurd h (Option.some_ne_none m).symm

theorem base_model_of_fit {env : HMMEnv} {ctx : ModelSelectorCtx}
    {num_states : Nat} (h : env.fitOk num_states ctx.X ctx.lengths = true) :
    base_model env ctx num_states = some ⟨num_states, ctx.X, ctx.lengths⟩ := by
  unfold base_model
  rw [if_pos h]

theorem bicCand_some_fit {env : HMMEnv} {ctx : ModelSelectorCtx} {n : Nat}
    {v : ℚ} (h : bicCand env ctx n = some v) :
    env.fitOk n ctx.X ctx.lengths = true := by
  unfold bicCand at h
  by_cases hf : env.fitOk n ctx.X ctx.lengths
  · exact hf
  · rw [if_neg hf] at h
    exact absurd h (Option.noConfusion)

theorem dicCand_some_fit {env : HMMEnv} {ctx : ModelSelectorCtx} {n : Nat}
    {v : ℚ} (h : dicCand env ctx n = some v) :
    env.fitOk n ctx.X ctx.lengths = true := by
  unfold dicCand at h
  by_cases hf : env.fitOk n ctx.X ctx.lengths
  · exact hf
  · rw [if_neg hf] at h
    exact absurd h (Option.noConfusion)

theorem bicCand_of_unfit {env : HMMEnv} {ctx : ModelSelectorCtx} {n : Nat}
    (h : env.fitOk n ctx.X ctx.lengths = false) :
    bicCand env ctx n = none := by
  unfold bicCand
  rw [h]
  simp

theorem dicCand_of_unfit {env : HMMEnv} {ctx : ModelSelectorCtx} {n : Nat}
    (h : env.fitOk n ctx.X ctx.lengths = false) :
    dicCand env ctx n = none := by
  unfold dicCand
  rw [h]
  simp

theorem cvLogLs_of_unfit {env : HMMEnv} {ctx : ModelSelectorCtx} {n : Nat}
    (h : ∀ X L, env.fitOk n X L = false)
    (folds : List (List Nat × List Nat)) :
    cvLogLs env ctx n folds = [] := by
  induction folds with
  | nil => rfl
  | cons fold rest ih =>
    unfold cvLogLs
    rw [h (cvFoldFitPair ctx.sequences fold).1
      (cvFoldFitPair ctx.sequences fold).2]
    simp [ih]

theorem cvLogLs_mem_const {env : HMMEnv} {ctx : ModelSelectorCtx} {n : Nat}
    {s0 : ℚ} (hs : ∀ Xt Lt Xs Ls, env.score n Xt Lt Xs Ls = some s0)
    (folds : List (List Nat × List Nat)) :
    ∀ x ∈ cvLogLs env ctx n folds, x = s0 := by
  induction folds with
  | nil => intro x hx; exact absurd hx (List.not_mem_nil x)
  | cons fold rest ih =>
    intro x hx
    unfold cvLogLs at hx
    by_cases hg : n ≤ (cvFoldFitPair ctx.sequences fold).1.length
    · rw [if_pos hg] at hx
      by_cases hf : env.fitOk n (cvFoldFitPair ctx.sequences fold).1
          (cvFoldFitPair ctx.sequences fold).2
      · rw [if_pos hf, hs _ _ _ _] at hx
        rcases List.mem_cons.mp hx with rfl | hx'
        · rfl
        · exact ih x hx'
      · rw [if_neg hf] at hx
        exact ih x hx
    · rw [if_neg hg] at hx
      exact ih x hx

theorem cvLogLs_ne_nil {env : HMMEnv} {ctx : ModelSelectorCtx} {n : Nat}
    {s0 : ℚ} (hf : ∀ X L, env.fitOk n X L = true)
    (hs : ∀ Xt Lt Xs Ls, env.score n Xt Lt Xs Ls = some s0)
    {folds : List (List Nat × List Nat)} {fold : List Nat × List Nat}
    (hmem : fold ∈ folds)
    (hrow : n ≤ (cvFoldFitPair ctx.sequences fold).1.length) :
    cvLogLs env ctx n folds ≠ [] := by
  induction folds with
  | nil => exact absurd hmem (List.not_mem_nil fold)
  | cons fold' rest ih =>
    unfold cvLogLs
    rcases List.mem_cons.mp hmem with rfl | hmem'
    · rw [if_pos hrow, hf _ _, if_pos rfl, hs _ _ _ _]
      exact List.cons_ne_nil s0 _
    · by_cases hg : n ≤ (cvFoldFitPair ctx.sequences fold').1.length
      · rw [if_pos hg, hf _ _, if_pos rfl, hs _ _ _ _]
        exact List.cons_ne_nil s0 _
      · rw [if_neg hg]
        exact ih hmem'

theorem sum_of_const {l : List ℚ} {s0 : ℚ} (hc : ∀ x ∈ l, x = s0) :
    l.sum = (l.length : ℚ) * s0 := by
  induction l with
  | nil => simp
  | cons x xs ih =>
    have hx : x = s0 := hc x (List.mem_cons_self x xs)
    have ihs : xs.sum = (xs.length : ℚ) * s0 :=
      ih (by intro y hy; exact hc y (List.mem_cons_of_mem x hy))
    rw [List.sum_cons, List.length_cons, hx, ihs]
    push_cast
    ring

theorem meanQ_const {l : List ℚ} {s0 : ℚ} (hne : l ≠ [])
    (hc : ∀ x ∈ l, x = s0) : meanQ l = some s0 := by
  unfold meanQ
  rw [if_neg (by simpa using hne)]
  have hlen : (l.length : ℚ) ≠ 0 := by
    have hpos : 0 < l.length := List.length_pos.mpr hne
    exact_mod_cast Nat.pos_iff_ne_zero.mp hpos
  rw [sum_of_const hc, mul_comm, mul_div_assoc, div_self hlen, mul_one]

theorem altScores_const {env : HMMEnv} {ctx : ModelSelectorCtx} {n : Nat}
    {s0 : ℚ} (l : List (String × XL))
    (hs : ∀ p ∈ l, env.score n ctx.X ctx.lengths p.2.1 p.2.2 = some s0) :
    altScores env ctx n l = some (l.map (fun _ => s0)) := by
  induction l with
  | nil => rfl
  | cons p rest ih =>
    unfold altScores
    rw [hs p (List.mem_cons_self p rest),
      ih (by intro q hq; exact hs q (List.mem_cons_of_mem p hq))]
    simp

theorem altScores_none {env : HMMEnv} {ctx : ModelSelectorCtx} {n : Nat}
    {l : List (String × XL)} {p : String × XL} (hmem : p ∈ l)
    (hs : env.score n ctx.X ctx.lengths p.2.1 p.2.2 = none) :
    altScores env ctx n l = none := by
  induction l with
  | nil => exact absurd hmem (List.not_mem_nil p)
  | cons q rest ih =>
    unfold altScores
    rcases List.mem_cons.mp hmem with rfl | hmem'
    · rw [hs]
    · cases hq : env.score n ctx.X ctx.lengths q.2.1 q.2.2 with
      | none => rfl
      | some v => rw [ih hmem']

/-! ### Bridges between the recognizer loop and the generic accumulator -/

theorem recog_foldl_snd (item : XL)
    (models : List (String × (XL → Option ℚ))) :
    ∀ (ph : List (String × ℚ)) (st : ℚ × Option String),
      (models.foldl (recogStep item) (ph, st)).2 =
        runBestGT st
          (models.map (fun wm => ((some wm.1 : Option String), wm.2 item))) := by
  induction models with
  | nil => intro ph st; rfl
  | cons wm rest ih =>
    intro ph st
    rw [List.foldl_cons, List.map_cons, runBestGT_cons]
    cases hit : wm.2 item with
    | none =>
      have hstep : recogStep item (ph, st) wm = (ph, st) := by
        unfold recogStep
        rw [hit]
      have hstep' : stepGT st ((some wm.1 : Option String), none) = st :=
        stepGT_none st _ rfl
      rw [hstep, hstep', ih ph st]
    | some v =>
      have hstep : recogStep item (ph, st) wm =
          (ph ++ [(wm.1, v)], if st.1 < v then (v, some wm.1) else st) := by
        unfold recogStep
        rw [hit]
      have hstep' : stepGT st ((some wm.1 : Option String), some v) =
          if st.1 < v then (v, some wm.1) else st :=
        stepGT_some st _ v rfl
      rw [hstep, hstep', ih (ph ++ [(wm.1, v)])]

theorem recog_foldl_fst (item : XL)
    (models : List (String × (XL → Option ℚ))) :
    ∀ (ph : List (String × ℚ)) (st : ℚ × Option String),
      (models.foldl (recogStep item) (ph, st)).1 =
        ph ++ models.filterMap
          (fun wm => (wm.2 item).map (fun v => (wm.1, v))) := by
  induction models with
  | nil => intro ph st; simp
  | cons wm rest ih =>
    intro ph st
    rw [List.foldl_cons]
    cases hit : wm.2 item with
    | none =>
      have hstep : recogStep item (ph, st) wm = (ph, st) := by
        unfold recogStep
        rw [hit]
      rw [hstep, ih ph st, List.filterMap_cons, hit]
      simp
    | some v =>
      have hstep : recogStep item (ph, st) wm =
          (ph ++ [(wm.1, v)], if st.1 < v then (v, some wm.1) else st) := by
        unfold recogStep
        rw [hit]
      rw [hstep, ih (ph ++ [(wm.1, v)]), List.filterMap_cons, hit]
      simp

theorem scoreItem_snd (models : List (String × (XL → Option ℚ))) (item : XL) :
    (scoreItem models item).2 =
      runBestGT ((-1000000000 : ℚ), (none : Option String))
        (models.map (fun wm => ((some wm.1 : Option String), wm.2 item))) :=
  recog_foldl_snd item models [] ((-1000000000 : ℚ), none)

theorem scoreItem_fst (models : List (String × (XL → Option ℚ))) (item : XL) :
    (scoreItem models item).1 =
      models.filterMap (fun wm => (wm.2 item).map (fun v => (wm.1, v))) := by
  have h := recog_foldl_fst item models [] ((-1000000000 : ℚ), none)
  simpa [scoreItem] using h

/-! ### Running-best accumulators on structured candidate lists -/

theorem runBestGT_tie_first {α : Type} {st0 : ℚ × α}
    {items1 items2 items3 : List (α × Option ℚ)} {a b : α} {s : ℚ}
    (h0 : st0.1 < s)
    (h1 : ∀ it ∈ items1, ∀ u, it.2 = some u → u < s)
    (h23 : ∀ it, (it ∈ items2 ∨ it ∈ items3) → ∀ u, it.2 = some u → u ≤ s) :
    runBestGT st0 (items1 ++ (a, some s) :: (items2 ++ (b, some s) :: items3))
      = (s, a) := by
  rw [runBestGT_append, runBestGT_cons]
  have hlt : (runBestGT st0 items1).1 < s := runBestGT_stay_lt h0 h1
  rw [stepGT_some _ _ s rfl, if_pos hlt, runBestGT_append]
  have hnoup2 : runBestGT ((s, a) : ℚ × α) items2 = (s, a) :=
    runBestGT_noupdate (by
      intro it hit u hu
      exact not_lt_of_le (h23 it (Or.inl hit) u hu))
  rw [hnoup2, runBestGT_cons, stepGT_some _ _ s rfl, if_neg (lt_irrefl s)]
  exact runBestGT_noupdate (by
    intro it hit u hu
    exact not_lt_of_le (h23 it (Or.inr hit) u hu))

theorem runBestLT_tie_first {α : Type} {st0 : ℚ × α}
    {items1 items2 items3 : List (α × Option ℚ)} {a b : α} {s : ℚ}
    (h0 : s < st0.1)
    (h1 : ∀ it ∈ items1, ∀ u, it.2 = some u → s < u)
    (h23 : ∀ it, (it ∈ items2 ∨ it ∈ items3) → ∀ u, it.2 = some u → s ≤ u) :
    runBestLT st0 (items1 ++ (a, some s) :: (items2 ++ (b, some s) :: items3))
      = (s, a) := by
  rw [runBestLT_append, runBestLT_cons]
  have hgt : s < (runBestLT st0 items1).1 := runBestLT_stay_gt h0 h1
  rw [stepLT_some _ _ s rfl, if_pos hgt, runBestLT_append]
  have hnoup2 : runBestLT ((s, a) : ℚ × α) items2 = (s, a) :=
    runBestLT_noupdate (by
      intro it hit u hu
      exact not_lt_of_le (h23 it (Or.inl hit) u hu))
  rw [hnoup2, runBestLT_cons, stepLT_some _ _ s rfl, if_neg (lt_irrefl s)]
  exact runBestLT_noupdate (by
    intro it hit u hu
    exact not_lt_of_le (h23 it (Or.inr hit) u hu))

theorem runBestGT_single_update {α : Type} {st0 : ℚ × α}
    {items1 items2 : List (α × Option ℚ)} {a : α} {v : ℚ}
    (h1 : ∀ it ∈ items1, it.2 = none) (h2 : ∀ it ∈ items2, it.2 = none)
    (hlt : st0.1 < v) :
    runBestGT st0 (items1 ++ (a, some v) :: items2) = (v, a) := by
  rw [runBestGT_append]
  have hnoup1 : runBestGT st0 items1 = st0 :=
    runBestGT_noupdate (by
      intro it hit u hu
      rw [h1 it hit] at hu
      exact absurd hu (Option.noConfusion))
  rw [hnoup1, runBestGT_cons, stepGT_some _ _ v rfl, if_pos hlt]
  exact runBestGT_noupdate (by
    intro it hit u hu
    rw [h2 it hit] at hu
    exact absurd hu (Option.noConfusion))

theorem runBestLT_single_update {α : Type} {st0 : ℚ × α}
    {items1 items2 : List (α × Option ℚ)} {a : α} {v : ℚ}
    (h1 : ∀ it ∈ items1, it.2 = none) (h2 : ∀ it ∈ items2, it.2 = none)
    (hlt : v < st0.1) :
    runBestLT st0 (items1 ++ (a, some v) :: items2) = (v, a) := by
  rw [runBestLT_append]
  have hnoup1 : runBestLT st0 items1 = st0 :=
    runBestLT_noupdate (by
      intro it hit u hu
      rw [h1 it hit] at hu
      exact absurd hu (Option.noConfusion))
  rw [hnoup1, runBestLT_cons, stepLT_some _ _ v rfl, if_pos hlt]
  exact runBestLT_noupdate (by
    intro it hit u hu
    rw [h2 it hit] at hu
    exact absurd hu (Option.noConfusion))

theorem runBestLT_snd_cases {st : ℚ × Nat} {l : List Nat}
    {f : Nat → Option ℚ} :
    (runBestLT st (l.map (fun n => (n, f n)))).2 = st.2 ∨
      (runBestLT st (l.map (fun n => (n, f n)))).2 ∈ l := by
  rcases runBestLT_result st (l.map (fun n => (n, f n))) with h |
    ⟨it, hmem, _, h2, _⟩
  · rw [h]
    exact Or.inl rfl
  · rcases List.mem_map.mp hmem with ⟨n, hn, rfl⟩
    exact Or.inr (h2 ▸ hn)

theorem runBestGT_snd_cases {st : ℚ × Nat} {l : List Nat}
    {f : Nat → Option ℚ} :
    (runBestGT st (l.map (fun n => (n, f n)))).2 = st.2 ∨
      (runBestGT st (l.map (fun n => (n, f n)))).2 ∈ l := by
  rcases runBestGT_result st (l.map (fun n => (n, f n))) with h |
    ⟨it, hmem, _, h2, _⟩
  · rw [h]
    exact Or.inl rfl
  · rcases List.mem_map.mp hmem with ⟨n, hn, rfl⟩
    exact Or.inr (h2 ▸ hn)

/-! ### The claims -/

/-- C2 (counterexample): with the default search range `[2, 10]` but
`n_constant = 11` and a trainer that fits, `SelectorConstant.select()`
returns a model with 11 hidden states — outside the configured range and not
absence, refuting the claim for "any configured n_constant". -/
theorem constant_select_out_of_range :
    (constantSelect envAllFit ctxConstant11).map HMMModel.n_components =
      some 11 ∧
    ctxConstant11.min_n_components = 2 ∧
    ctxConstant11.max_n_components = 10 ∧
    ¬ (11 ≤ ctxConstant11.max_n_components) :=
  ⟨rfl, rfl, rfl, by decide⟩

/-- C2 (amended): provided `min_n_components ≤ max_n_components`, the three
searching selectors (BIC, DIC, CV) return a model whose state count lies
within `[min_n_components, max_n_components]` or absence; `SelectorConstant`
instead returns a model with exactly `n_constant` states (in range only when
`n_constant` happens to lie in it) or absence. -/
theorem select_state_count_in_range_amended (env : HMMEnv)
    (ctx : ModelSelectorCtx)
    (hle : ctx.min_n_components ≤ ctx.max_n_components) :
    (∀ m, bicSelect env ctx = some m →
      ctx.min_n_components ≤ m.n_components ∧
        m.n_components ≤ ctx.max_n_components) ∧
    (∀ m, dicSelect env ctx = some m →
      ctx.min_n_components ≤ m.n_components ∧
        m.n_components ≤ ctx.max_n_components) ∧
    (∀ m, cvSelect env ctx = Except.ok (some m) →
      ctx.min_n_components ≤ m.n_components ∧
        m.n_components ≤ ctx.max_n_components) ∧
    (∀ m, constantSelect env ctx = some m →
      m.n_components = ctx.n_constant) := by
  have hpick : ∀ k : Nat,
      (k = ctx.min_n_components ∨
        k ∈ candRange ctx.min_n_components ctx.max_n_components) →
      ctx.min_n_components ≤ k ∧ k ≤ ctx.max_n_components := by
    intro k hk
    rcases hk with rfl | hk
    · exact ⟨le_refl _, hle⟩
    · exact mem_candRange.mp hk
  refine ⟨?_, ?_, ?_, ?_⟩
  · intro m hm
    unfold bicSelect at hm
    rw [base_model_some hm]
    exact hpick _ runBestLT_snd_cases
  · intro m hm
    unfold dicSelect at hm
    rw [base_model_some hm]
    exact hpick _ runBestGT_snd_cases
  · intro m hm
    unfold cvSelect at hm
    rw [if_neg (by omega)] at hm
    cases hk : kfoldSplit (cvSplitCount ctx.sequences) ctx.sequences.length
      with
    | error e =>
      rw [hk] at hm
      exact absurd hm (by simp)
    | ok folds =>
      rw [hk] at hm
      have hm' := Except.ok.inj hm
      rw [base_model_some hm']
      exact hpick _ runBestGT_snd_cases
  · intro m hm
    unfold constantSelect at hm
    rw [base_model_some hm]

/-- C2 (witness): on the two-word corpus with the always-fit trainer the
amended bounds are realised: BIC picks 2 states (inside `[2, 3]`) and
Constant picks its `n_constant = 3`. -/
theorem select_state_count_in_range_amended_witness :
    2 ≤ (HMMModel.mk 2 ctxTwoWords.X ctxTwoWords.lengths).n_components ∧
    (HMMModel.mk 2 ctxTwoWords.X ctxTwoWords.lengths).n_components ≤ 3 ∧
    (HMMModel.mk 3 ctxTwoWords.X ctxTwoWords.lengths).n_components = 3 := by
  obtain ⟨hb, hd, hc, hk⟩ :=
    select_state_count_in_range_amended envAllFit ctxTwoWords (by decide)
  have hbic : bicSelect envAllFit ctxTwoWords =
      some (HMMModel.mk 2 ctxTwoWords.X ctxTwoWords.lengths) := by
    norm_num [bicSelect, bicCand, base_model, runBestLT, stepLT, candRange,
      envAllFit, ctxTwoWords, List.range']
  have hconst : constantSelect envAllFit ctxTwoWords =
      some (HMMModel.mk 3 ctxTwoWords.X ctxTwoWords.lengths) := rfl
  exact ⟨(hb _ hbic).1, (hb _ hbic).2, hk _ hconst⟩

/-- C3: in `SelectorCV.select`, the pair the fold's candidate is scored
against (line 158) is built from `cv_train_idx`, hence is literally the pair
the candidate was fitted on (line 154); and it differs from the held-out
pair built from `cv_test_idx` (here on the fold `([0], [1])` of a two-sequence
word, whose held-out pair would be `combine_sequences [1] …`). -/
theorem cv_scores_against_training_fold :
    (∀ (sequences : List (List Frame)) (fold : List Nat × List Nat),
        cvFoldScorePair sequences fold = cvFoldFitPair sequences fold) ∧
    cvFoldScorePair [[[0]], [[1]]] ([0], [1]) ≠
      combine_sequences [1] [[[0]], [[1]]] := by
  refine ⟨fun sequences fold => rfl, ?_⟩
  norm_num [cvFoldScorePair, combine_sequences]

/-- C7: the fold count `split_count` used by `SelectorCV.select` is 3 when
the word has at least 3 training sequences and the sequence count itself when
it has fewer, so it never exceeds the sequence count. -/
theorem cv_fold_count_rule (sequences : List (List Frame)) :
    (sequences.length < 3 → cvSplitCount sequences = sequences.length) ∧
    (3 ≤ sequences.length → cvSplitCount sequences = 3) ∧
    cvSplitCount sequences ≤ sequences.length := by
  unfold cvSplitCount
  by_cases h : sequences.length < 3
  · rw [if_pos h]
    exact ⟨fun _ => rfl, fun h3 => absurd h3 (by omega), le_refl _⟩
  · rw [if_neg h]
    exact ⟨fun hl => absurd hl h, fun _ => rfl, by omega⟩

/-- C7 (witness): a 2-sequence word gets 2 folds, a 3-sequence word gets 3. -/
theorem cv_fold_count_rule_witness :
    cvSplitCount [[[0]], [[1]]] = 2 ∧ cvSplitCount [[[0]], [[1]], [[2]]] = 3 :=
  ⟨(cv_fold_count_rule [[[0]], [[1]]]).1 (by decide),
   (cv_fold_count_rule [[[0]], [[1]], [[2]]]).2.1 (by decide)⟩

/-- C10: a guess of absence does not imply that no model scored the item:
with a single model scoring exactly the sentinel `-1e9` (which the strict `>`
comparison never beats), the item's probability mapping is non-empty while
its guess is absence. -/
theorem recognize_absence_with_nonempty_probs :
    recognize [("A", fun _ => some (-1000000000))] [([[0]], [1])] =
      ([[("A", -1000000000)]], [none]) := by
  norm_num [recognize, scoreItem, recogStep]

/-- C8: in `recognize`, the running best is updated only on strict `>`
starting from the sentinel `-1e9`, so when two models produce exactly the
same log-likelihood on a test item — and no model strictly beats it — the
guess is the word appearing earlier in the model mapping's iteration
order. -/
theorem recognize_tie_break_first_word
    (models l1 l2 l3 : List (String × (XL → Option ℚ)))
    (a b : String) (fa fb : XL → Option ℚ) (ts : List XL) (i : Nat)
    (item : XL) (s : ℚ)
    (hts : ts[i]? = some item)
    (hm : models = l1 ++ (a, fa) :: (l2 ++ (b, fb) :: l3))
    (hfa : fa item = some s) (hfb : fb item = some s)
    (hsent : -1000000000 < s)
    (hl1 : ∀ wf ∈ l1, ∀ v, wf.2 item = some v → v < s)
    (hl23 : ∀ wf, (wf ∈ l2 ∨ wf ∈ l3) → ∀ v, wf.2 item = some v → v ≤ s) :
    (recognize models ts).2[i]? = some (some a) := by
  have hrec : (recognize models ts).2 =
      ts.map (fun it => (scoreItem models it).2.2) := rfl
  rw [hrec, List.getElem?_map, hts, Option.map_some']
  refine congrArg some ?_
  rw [scoreItem_snd]
  subst hm
  rw [List.map_append, List.map_cons, List.map_append, List.map_cons]
  dsimp only
  rw [hfa, hfb]
  have htie : runBestGT ((-1000000000 : ℚ), (none : Option String))
      (List.map (fun wm => ((some wm.1 : Option String), wm.2 item)) l1 ++
        ((some a : Option String), some s) ::
          (List.map (fun wm => ((some wm.1 : Option String), wm.2 item)) l2 ++
            ((some b : Option String), some s) ::
              List.map (fun wm => ((some wm.1 : Option String), wm.2 item))
                l3)) = (s, some a) := by
    refine runBestGT_tie_first hsent ?_ ?_
    · intro it hit u hu
      rcases List.mem_map.mp hit with ⟨wf, hwf, rfl⟩
      exact hl1 wf hwf u hu
    · intro it hit u hu
      rcases hit with hit | hit
      · rcases List.mem_map.mp hit with ⟨wf, hwf, rfl⟩
        exact hl23 wf (Or.inl hwf) u hu
      · rcases List.mem_map.mp hit with ⟨wf, hwf, rfl⟩
        exact hl23 wf (Or.inr hwf) u hu
  rw [htie]

/-- C8 (witness): two models that both score 5 on the single test item; the
guess is "A", the first word in iteration order. -/
theorem recognize_tie_break_first_word_witness :
    (recognize [("A", fun _ => some 5), ("B", fun _ => some 5)]
      [([[0]], [1])]).2[0]? = some (some "A") :=
  recognize_tie_break_first_word _ [] [] [] "A" "B"
    (fun _ => some 5) (fun _ => some 5) [([[0]], [1])] 0 ([[0]], [1]) 5
    rfl rfl rfl rfl (by norm_num)
    (by intro wf hwf; exact absurd hwf (List.not_mem_nil wf))
    (by rintro wf (h | h) <;> exact absurd h (List.not_mem_nil wf))

/-- C9: in `recognize`, a word whose model fails to score an item is omitted
from the item's probability mapping while every other entry is exactly the
word's own score, unaffected by the failure (the mapping is the in-order
`filterMap` of the per-word scores); an item on which every model fails
yields an empty mapping and a guess of absence. -/
theorem recognize_failure_isolation
    (models : List (String × (XL → Option ℚ))) (ts : List XL) (i : Nat)
    (item : XL) (hts : ts[i]? = some item) :
    (recognize models ts).1[i]? =
      some (models.filterMap
        (fun wm => (wm.2 item).map (fun v => (wm.1, v)))) ∧
    ((∀ wf ∈ models, wf.2 item = none) →
      (recognize models ts).1[i]? = some [] ∧
      (recognize models ts).2[i]? = some none) := by
  have hprob : (recognize models ts).1[i]? =
      some (models.filterMap
        (fun wm => (wm.2 item).map (fun v => (wm.1, v)))) := by
    have h1 : (recognize models ts).1 =
        ts.map (fun it => (scoreItem models it).1) := rfl
    rw [h1, List.getElem?_map, hts, Option.map_some']
    exact congrArg some (scoreItem_fst models item)
  refine ⟨hprob, fun hall => ⟨?_, ?_⟩⟩
  · rw [hprob]
    refine congrArg some ?_
    rw [List.filterMap_eq_nil_iff]
    intro wf hwf
    rw [hall wf hwf]
    rfl
  · have h2 : (recognize models ts).2 =
        ts.map (fun it => (scoreItem models it).2.2) := rfl
    rw [h2, List.getElem?_map, hts, Option.map_some']
    refine congrArg some ?_
    rw [scoreItem_snd]
    have hnone : runBestGT ((-1000000000 : ℚ), (none : Option String))
        (models.map (fun wm => ((some wm.1 : Option String), wm.2 item))) =
        ((-1000000000 : ℚ), none) :=
      runBestGT_noupdate (by
        intro it hit u hu
        rcases List.mem_map.mp hit with ⟨wf, hwf, rfl⟩
        rw [hall wf hwf] at hu
        exact absurd hu Option.noConfusion)
    rw [hnone]

/-- C9 (witness): with the only model failing to score the item, the item's
probability mapping is empty and its guess is absence. -/
theorem recognize_failure_isolation_witness :
    (recognize [("A", fun _ => (none : Option ℚ))]
      [([[0]], [1])]).1[0]? = some [] ∧
    (recognize [("A", fun _ => (none : Option ℚ))]
      [([[0]], [1])]).2[0]? = some none := by
  have h := recognize_failure_isolation [("A", fun _ => (none : Option ℚ))]
    [([[0]], [1])] 0 ([[0]], [1]) rfl
  refine h.2 ?_
  intro wf hwf
  rcases List.mem_cons.mp hwf with rfl | hwf'
  · rfl
  · exact absurd hwf' (List.not_mem_nil wf)

/-- C4: in `SelectorBIC.select`, a candidate that fits and scores is scored
by exactly `BIC = -2*logL + p*ln(N)` with `p = n*n + 2*n*T - 1`,
`T = sum(lengths)` and `N` the row count of `X` (the spec's own formula,
`bicScoreSpec`); the minimum is tracked from the sentinel `1e8` with strict
`<`, so of two candidates with numerically identical BIC (minimal among the
successful candidates and below the sentinel) the smaller state count wins,
and the winner is re-fitted through `base_model`. -/
theorem bic_formula_and_tie_break (env : HMMEnv) (ctx : ModelSelectorCtx) :
    (∀ n logL, env.fitOk n ctx.X ctx.lengths = true →
      env.score n ctx.X ctx.lengths ctx.X ctx.lengths = some logL →
      bicCand env ctx n =
        some (bicScoreSpec logL n ctx.lengths.sum
          (env.nplog ctx.X.length))) ∧
    (∀ l1 l2 l3 n1 n2 v,
      candRange ctx.min_n_components ctx.max_n_components =
        l1 ++ n1 :: (l2 ++ n2 :: l3) →
      bicCand env ctx n1 = some v →
      bicCand env ctx n2 = some v →
      v < 100000000 →
      (∀ n ∈ l1, ∀ u, bicCand env ctx n = some u → v < u) →
      (∀ n, (n ∈ l2 ∨ n ∈ l3) → ∀ u, bicCand env ctx n = some u → v ≤ u) →
      bicSelect env ctx = base_model env ctx n1) := by
  constructor
  · intro n logL hfit hscore
    unfold bicCand bicScoreSpec
    rw [hfit, if_pos rfl, hscore]
    refine congrArg some ?_
    ring
  · intro l1 l2 l3 n1 n2 v hrange h1 h2 hv hl1 hl23
    unfold bicSelect
    rw [hrange, List.map_append, List.map_cons, List.map_append,
      List.map_cons, h1, h2]
    have htie : runBestLT ((100000000 : ℚ), ctx.min_n_components)
        (List.map (fun n => (n, bicCand env ctx n)) l1 ++
          (n1, some v) ::
            (List.map (fun n => (n, bicCand env ctx n)) l2 ++
              (n2, some v) ::
                List.map (fun n => (n, bicCand env ctx n)) l3))
        = (v, n1) := by
      refine runBestLT_tie_first hv ?_ ?_
      · intro it hit u hu
        rcases List.mem_map.mp hit with ⟨n, hn, rfl⟩
        exact hl1 n hn u hu
      · intro it hit u hu
        rcases hit with hit | hit
        · rcases List.mem_map.mp hit with ⟨n, hn, rfl⟩
          exact hl23 n (Or.inl hn) u hu
        · rcases List.mem_map.mp hit with ⟨n, hn, rfl⟩
          exact hl23 n (Or.inr hn) u hu
    rw [htie]

/-- C4 (witness): on the two-word corpus with the always-fit zero-score
trainer, the formula holds at `n = 2` and the `n = 2` / `n = 3` BIC tie is
resolved in favour of the smaller count. -/
theorem bic_formula_and_tie_break_witness :
    bicCand envAllFit ctxTwoWords 2 =
      some (bicScoreSpec 0 2 ctxTwoWords.lengths.sum
        (envAllFit.nplog ctxTwoWords.X.length)) ∧
    bicSelect envAllFit ctxTwoWords = base_model envAllFit ctxTwoWords 2 := by
  obtain ⟨hf, ht⟩ := bic_formula_and_tie_break envAllFit ctxTwoWords
  refine ⟨hf 2 0 rfl rfl, ht [] [] [] 2 3 0 rfl ?_ ?_ (by norm_num) ?_ ?_⟩
  · norm_num [bicCand, envAllFit, ctxTwoWords]
  · norm_num [bicCand, envAllFit, ctxTwoWords]
  · intro n hn
    exact absurd hn (List.not_mem_nil n)
  · rintro n (h | h) <;> exact fun u hu => absurd h (List.not_mem_nil n)

/-- C5: in `SelectorDIC.select`, a candidate that fits and whose scoring
calls all succeed is scored by exactly `DIC = logL - mean(other words'
log-likelihoods)` (the spec's `dicScoreSpec`); a ScoreError on ANY other word
makes the whole candidate `n` contribute nothing; the maximum is tracked from
the sentinel `-1e8` with strict `>` so of two candidates with identical DIC
(maximal among the successful ones, above the sentinel) the earlier state
count wins; and the winner is re-fitted via `base_model`. -/
theorem dic_formula_skip_and_tie_break (env : HMMEnv)
    (ctx : ModelSelectorCtx) :
    (∀ n logL alts, env.fitOk n ctx.X ctx.lengths = true →
      env.score n ctx.X ctx.lengths ctx.X ctx.lengths = some logL →
      altScores env ctx n (otherWords ctx) = some alts →
      alts ≠ [] →
      dicCand env ctx n = some (dicScoreSpec logL alts)) ∧
    (∀ n p, p ∈ otherWords ctx →
      env.score n ctx.X ctx.lengths p.2.1 p.2.2 = none →
      dicCand env ctx n = none) ∧
    (∀ l1 l2 l3 n1 n2 v,
      candRange ctx.min_n_components ctx.max_n_components =
        l1 ++ n1 :: (l2 ++ n2 :: l3) →
      dicCand env ctx n1 = some v →
      dicCand env ctx n2 = some v →
      -100000000 < v →
      (∀ n ∈ l1, ∀ u, dicCand env ctx n = some u → u < v) →
      (∀ n, (n ∈ l2 ∨ n ∈ l3) → ∀ u, dicCand env ctx n = some u → u ≤ v) →
      dicSelect env ctx = base_model env ctx n1) := by
  refine ⟨?_, ?_, ?_⟩
  · intro n logL alts hfit hscore halts hne
    unfold dicCand
    rw [hfit, if_pos rfl, hscore, halts]
    have hmean : meanQ alts = some (alts.sum / (alts.length : ℚ)) := by
      unfold meanQ
      rw [if_neg (by simpa using hne)]
    dsimp only
    rw [hmean]
    rfl
  · intro n p hmem hs
    unfold dicCand
    by_cases hfit : env.fitOk n ctx.X ctx.lengths
    · rw [if_pos hfit]
      cases hsc : env.score n ctx.X ctx.lengths ctx.X ctx.lengths with
      | none => rfl
      | some logL => rw [altScores_none hmem hs]
    · rw [if_neg hfit]
  · intro l1 l2 l3 n1 n2 v hrange h1 h2 hv hl1 hl23
    unfold dicSelect
    rw [hrange, List.map_append, List.map_cons, List.map_append,
      List.map_cons, h1, h2]
    have htie : runBestGT ((-100000000 : ℚ), ctx.min_n_components)
        (List.map (fun n => (n, dicCand env ctx n)) l1 ++
          (n1, some v) ::
            (List.map (fun n => (n, dicCand env ctx n)) l2 ++
              (n2, some v) ::
                List.map (fun n => (n, dicCand env ctx n)) l3))
        = (v, n1) := by
      refine runBestGT_tie_first hv ?_ ?_
      · intro it hit u hu
        rcases List.mem_map.mp hit with ⟨n, hn, rfl⟩
        exact hl1 n hn u hu
      · intro it hit u hu
        rcases hit with hit | hit
        · rcases List.mem_map.mp hit with ⟨n, hn, rfl⟩
          exact hl23 n (Or.inl hn) u hu
        · rcases List.mem_map.mp hit with ⟨n, hn, rfl⟩
          exact hl23 n (Or.inr hn) u hu
    rw [htie]

/-- C5 (witness): on the two-word corpus, the DIC formula holds at `n = 2`
under the zero-score trainer; a score failure on the other word "B" kills the
whole candidate; and the `n = 2` / `n = 3` DIC tie keeps the earlier
count. -/
theorem dic_formula_skip_and_tie_break_witness :
    dicCand envAllFit ctxTwoWords 2 = some (dicScoreSpec 0 [0]) ∧
    dicCand envScoreFailB ctxTwoWords 2 = none ∧
    dicSelect envAllFit ctxTwoWords = base_model envAllFit ctxTwoWords 2 := by
  obtain ⟨hform, hskip, htie⟩ :=
    dic_formula_skip_and_tie_break envAllFit ctxTwoWords
  obtain ⟨_, hskip', _⟩ :=
    dic_formula_skip_and_tie_break envScoreFailB ctxTwoWords
  refine ⟨hform 2 0 [0] rfl rfl rfl (by simp),
    hskip' 2 ("B", ([[5]], [1])) (List.mem_singleton.mpr rfl) rfl,
    htie [] [] [] 2 3 0 rfl ?_ ?_ (by norm_num) ?_ ?_⟩
  · norm_num [dicCand, altScores, otherWords, meanQ, envAllFit, ctxTwoWords]
  · norm_num [dicCand, altScores, otherWords, meanQ, envAllFit, ctxTwoWords]
  · intro n hn
    exact absurd hn (List.not_mem_nil n)
  · rintro n (h | h) <;> exact fun u hu => absurd h (List.not_mem_nil n)

theorem cv_kfold_ok (ctx : ModelSelectorCtx)
    (hseq : 2 ≤ ctx.sequences.length) :
    ∃ folds, kfoldSplit (cvSplitCount ctx.sequences) ctx.sequences.length =
      Except.ok folds := by
  unfold kfoldSplit cvSplitCount
  by_cases h3 : ctx.sequences.length < 3
  · rw [if_pos h3, if_neg (by omega), if_neg (by omega)]
    exact ⟨_, rfl⟩
  · rw [if_neg h3, if_neg (by omega), if_neg (by omega)]
    exact ⟨_, rfl⟩

/-- C1 (counterexample): with only `n = 3` fitting and the (realisable) very
bad log-likelihood `-1e8` on a one-row `X` (so `ln N = ln 1 = 0`), candidate
3 fits AND scores successfully — its try body completes with BIC `2e8` — yet
`SelectorBIC.select()` returns absence, because `2e8` does not beat the `1e8`
sentinel under strict `<` and the untouched fallback count `min_n = 2` does
not fit.  Absence thus does not require that every candidate across the
range failed. -/
theorem bic_absence_despite_successful_candidate :
    bicCand envBicSat ctxBicSat 3 = some 200000000 ∧
    bicSelect envBicSat ctxBicSat = none := by
  constructor
  · norm_num [bicCand, envBicSat, ctxBicSat]
  · norm_num [bicSelect, bicCand, base_model, runBestLT, stepLT, candRange,
      envBicSat, ctxBicSat, List.range']

/-- C1 (amended): FitError and ScoreError are caught inside the search loops
and never propagate out of `select()`: `SelectorConstant` returns absence
exactly when its one fit fails, and `SelectorCV.select` completes without
raising for every word with at least 2 training sequences (with fewer, the
fold-split call itself — not a Fit/ScoreError — raises).  A single failure
never forces absence: whenever some candidate in range fits and scores
successfully AND its criterion beats the initial sentinel (BIC `< 1e8`,
DIC `> -1e8`), BIC resp. DIC return a model. -/
theorem select_error_containment (env : HMMEnv) (ctx : ModelSelectorCtx) :
    (constantSelect env ctx = none ↔
      env.fitOk ctx.n_constant ctx.X ctx.lengths = false) ∧
    (2 ≤ ctx.sequences.length → ∃ r, cvSelect env ctx = Except.ok r) ∧
    ((∃ n ∈ candRange ctx.min_n_components ctx.max_n_components, ∃ v,
        bicCand env ctx n = some v ∧ v < 100000000) →
      ∃ m, bicSelect env ctx = some m) ∧
    ((∃ n ∈ candRange ctx.min_n_components ctx.max_n_components, ∃ v,
        dicCand env ctx n = some v ∧ -100000000 < v) →
      ∃ m, dicSelect env ctx = some m) := by
  refine ⟨?_, ?_, ?_, ?_⟩
  · unfold constantSelect base_model
    by_cases hf : env.fitOk ctx.n_constant ctx.X ctx.lengths
    · rw [if_pos hf]
      simp [hf]
    · rw [if_neg hf]
      rw [Bool.not_eq_true] at hf
      simp [hf]
  · intro hseq
    unfold cvSelect
    by_cases hminmax : ctx.max_n_components < ctx.min_n_components
    · rw [if_pos hminmax]
      exact ⟨_, rfl⟩
    · rw [if_neg hminmax]
      rcases cv_kfold_ok ctx hseq with ⟨folds, hk⟩
      rw [hk]
      exact ⟨_, rfl⟩
  · rintro ⟨n, hn, v, hv, hlt⟩
    unfold bicSelect
    have hm : ((n, bicCand env ctx n) : Nat × Option ℚ) ∈
        (candRange ctx.min_n_components ctx.max_n_components).map
          (fun k => (k, bicCand env ctx k)) :=
      List.mem_map_of_mem _ hn
    have hstrict : (runBestLT ((100000000 : ℚ), ctx.min_n_components)
        ((candRange ctx.min_n_components ctx.max_n_components).map
          (fun k => (k, bicCand env ctx k)))).1 < (100000000 : ℚ) :=
      runBestLT_strict ⟨(n, bicCand env ctx n), hm, v, hv, hlt⟩
    rcases runBestLT_result ((100000000 : ℚ), ctx.min_n_components)
        ((candRange ctx.min_n_components ctx.max_n_components).map
          (fun k => (k, bicCand env ctx k))) with heq | ⟨it, hmem, h1, h2, _⟩
    · rw [heq] at hstrict
      exact absurd hstrict (lt_irrefl _)
    · rcases List.mem_map.mp hmem with ⟨n0, _, rfl⟩
      have hfit := bicCand_some_fit h1
      rw [← h2]
      exact ⟨_, base_model_of_fit hfit⟩
  · rintro ⟨n, hn, v, hv, hlt⟩
    unfold dicSelect
    have hm : ((n, dicCand env ctx n) : Nat × Option ℚ) ∈
        (candRange ctx.min_n_components ctx.max_n_components).map
          (fun k => (k, dicCand env ctx k)) :=
      List.mem_map_of_mem _ hn
    have hstrict : (((-100000000 : ℚ), ctx.min_n_components) : ℚ × Nat).1 <
        (runBestGT ((-100000000 : ℚ), ctx.min_n_components)
          ((candRange ctx.min_n_components ctx.max_n_components).map
            (fun k => (k, dicCand env ctx k)))).1 :=
      runBestGT_strict ⟨(n, dicCand env ctx n), hm, v, hv, hlt⟩
    rcases runBestGT_result ((-100000000 : ℚ), ctx.min_n_components)
        ((candRange ctx.min_n_components ctx.max_n_components).map
          (fun k => (k, dicCand env ctx k))) with heq | ⟨it, hmem, h1, h2, _⟩
    · rw [heq] at hstrict
      exact absurd hstrict (lt_irrefl _)
    · rcases List.mem_map.mp hmem with ⟨n0, _, rfl⟩
      have hfit := dicCand_some_fit h1
      rw [← h2]
      exact ⟨_, base_model_of_fit hfit⟩

/-- C1 (witness): on the two-word corpus with the always-fit zero-score
trainer, CV completes without raising and both BIC and DIC return a model. -/
theorem select_error_containment_witness :
    (∃ r, cvSelect envAllFit ctxTwoWords = Except.ok r) ∧
    (∃ m, bicSelect envAllFit ctxTwoWords = some m) ∧
    (∃ m, dicSelect envAllFit ctxTwoWords = some m) := by
  obtain ⟨hconst, hcv, hbic, hdic⟩ :=
    select_error_containment envAllFit ctxTwoWords
  refine ⟨hcv (by decide), hbic ⟨2, by decide, 0, ?_, by norm_num⟩,
    hdic ⟨2, by decide, 0, ?_, by norm_num⟩⟩
  · norm_num [bicCand, envAllFit, ctxTwoWords]
  · norm_num [dicCand, altScores, otherWords, meanQ, envAllFit, ctxTwoWords]

/-- C6 (counterexample): a corpus on which exactly one candidate fits —
`n = 3` fits on any data while `n = 2` raises a fit error — but whose score
calls raise.  BIC, DIC and CV all return absence rather than a model with 3
states. -/
theorem lone_fitting_candidate_not_selected :
    envLoneFitScoreFail.fitOk 3 ctxTwoWords.X ctxTwoWords.lengths = true ∧
    envLoneFitScoreFail.fitOk 2 ctxTwoWords.X ctxTwoWords.lengths = false ∧
    bicSelect envLoneFitScoreFail ctxTwoWords = none ∧
    dicSelect envLoneFitScoreFail ctxTwoWords = none ∧
    cvSelect envLoneFitScoreFail ctxTwoWords = Except.ok none := by
  refine ⟨rfl, rfl, ?_, ?_, ?_⟩
  · norm_num [bicSelect, bicCand, base_model, runBestLT, stepLT, candRange,
      envLoneFitScoreFail, ctxTwoWords, List.range']
  · norm_num [dicSelect, dicCand, base_model, runBestGT, stepGT, candRange,
      envLoneFitScoreFail, ctxTwoWords, List.range']
  · have hk : kfoldSplit (cvSplitCount [[[0], [0]], [[1], [1]]]) 2
        = Except.ok [([1], [0]), ([0], [1])] := rfl
    norm_num [cvSelect, hk, cvCand, cvLogLs, cvFoldFitPair, cvFoldScorePair,
      combine_sequences, meanQ, base_model, runBestGT, stepGT, candRange,
      envLoneFitScoreFail, ctxTwoWords, List.range']

/-- C6 (amended): if exactly one candidate state count `nstar` in the search
range fits (on any data, all other counts raising a fit error), and
additionally every score call succeeds (with a common value `s0`), at least
one other word exists, `nstar`'s BIC value beats the `1e8` sentinel, `s0`
beats the CV sentinel `-1e5`, the word has at least 2 training sequences and
some fold's training subset has at least `nstar` rows, then BIC, DIC and CV
each return the model re-fitted with exactly `nstar` states. -/
theorem lone_fitting_candidate_selected_amended
    (env : HMMEnv) (ctx : ModelSelectorCtx) (nstar : Nat) (s0 : ℚ)
    (l1 l2 : List Nat)
    (hfit : ∀ n X L, env.fitOk n X L = decide (n = nstar))
    (hscore : ∀ n Xt Lt Xs Ls, env.score n Xt Lt Xs Ls = some s0)
    (hrange : candRange ctx.min_n_components ctx.max_n_components =
      l1 ++ nstar :: l2)
    (hnl1 : nstar ∉ l1) (hnl2 : nstar ∉ l2)
    (hother : otherWords ctx ≠ [])
    (hbic : (-2 * s0) +
      ((((nstar : ℚ) ^ 2) + (2 * (nstar : ℚ) * (ctx.lengths.sum : ℚ)) - 1) *
        env.nplog ctx.X.length) < 100000000)
    (hcv : -100000 < s0)
    (hseq : 2 ≤ ctx.sequences.length)
    (hfolds : ∀ folds,
      kfoldSplit (cvSplitCount ctx.sequences) ctx.sequences.length =
        Except.ok folds →
      ∃ fold ∈ folds, nstar ≤ (cvFoldFitPair ctx.sequences fold).1.length) :
    bicSelect env ctx = some ⟨nstar, ctx.X, ctx.lengths⟩ ∧
    dicSelect env ctx = some ⟨nstar, ctx.X, ctx.lengths⟩ ∧
    cvSelect env ctx = Except.ok (some ⟨nstar, ctx.X, ctx.lengths⟩) := by
  have hfitstar : ∀ X L, env.fitOk nstar X L = true := by
    intro X L
    rw [hfit]
    simp
  have hfitoff : ∀ n, n ≠ nstar → ∀ X L, env.fitOk n X L = false := by
    intro n hn X L
    rw [hfit]
    simp [hn]
  have hbase : base_model env ctx nstar = some ⟨nstar, ctx.X, ctx.lengths⟩ :=
    base_model_of_fit (hfitstar ctx.X ctx.lengths)
  have hne1 : ∀ n ∈ l1, n ≠ nstar := by
    intro n hn heq
    exact hnl1 (heq ▸ hn)
  have hne2 : ∀ n ∈ l2, n ≠ nstar := by
    intro n hn heq
    exact hnl2 (heq ▸ hn)
  refine ⟨?_, ?_, ?_⟩
  · obtain ⟨bv, hbiccand, hbv⟩ :
        ∃ bv, bicCand env ctx nstar = some bv ∧ bv < 100000000 := by
      refine ⟨_, ?_, hbic⟩
      unfold bicCand
      rw [hfitstar ctx.X ctx.lengths, if_pos rfl, hscore]
    unfold bicSelect
    rw [hrange, List.map_append, List.map_cons, hbiccand]
    have hupd : runBestLT ((100000000 : ℚ), ctx.min_n_components)
        (List.map (fun n => (n, bicCand env ctx n)) l1 ++
          (nstar, some bv) ::
            List.map (fun n => (n, bicCand env ctx n)) l2) = (bv, nstar) := by
      refine runBestLT_single_update ?_ ?_ hbv
      · intro it hit
        rcases List.mem_map.mp hit with ⟨n, hn, rfl⟩
        exact bicCand_of_unfit (hfitoff n (hne1 n hn) ctx.X ctx.lengths)
      · intro it hit
        rcases List.mem_map.mp hit with ⟨n, hn, rfl⟩
        exact bicCand_of_unfit (hfitoff n (hne2 n hn) ctx.X ctx.lengths)
    rw [hupd]
    exact hbase
  · have hdiccand : dicCand env ctx nstar = some (s0 - s0) := by
      unfold dicCand
      rw [hfitstar ctx.X ctx.lengths, if_pos rfl, hscore]
      dsimp only
      rw [altScores_const (otherWords ctx)
        (by intro p hp; exact hscore nstar ctx.X ctx.lengths p.2.1 p.2.2)]
      dsimp only
      rw [meanQ_const
        (by
          intro hmap
          exact hother (List.map_eq_nil_iff.mp hmap))
        (by
          intro x hx
          rcases List.mem_map.mp hx with ⟨p, hp, rfl⟩
          rfl)]
    have hdicpos : (-100000000 : ℚ) < s0 - s0 := by
      rw [sub_self]
      norm_num
    unfold dicSelect
    rw [hrange, List.map_append, List.map_cons, hdiccand]
    have hupd : runBestGT ((-100000000 : ℚ), ctx.min_n_components)
        (List.map (fun n => (n, dicCand env ctx n)) l1 ++
          (nstar, some (s0 - s0)) ::
            List.map (fun n => (n, dicCand env ctx n)) l2)
        = (s0 - s0, nstar) := by
      refine runBestGT_single_update ?_ ?_ hdicpos
      · intro it hit
        rcases List.mem_map.mp hit with ⟨n, hn, rfl⟩
        exact dicCand_of_unfit (hfitoff n (hne1 n hn) ctx.X ctx.lengths)
      · intro it hit
        rcases List.mem_map.mp hit with ⟨n, hn, rfl⟩
        exact dicCand_of_unfit (hfitoff n (hne2 n hn) ctx.X ctx.lengths)
    rw [hupd]
    exact hbase
  · have hminmax : ctx.min_n_components ≤ ctx.max_n_components := by
      refine candRange_nonempty ?_
      rw [hrange]
      simp
    unfold cvSelect
    rw [if_neg (by omega)]
    rcases cv_kfold_ok ctx hseq with ⟨folds, hk⟩
    rw [hk]
    obtain ⟨fold, hfmem, hrow⟩ := hfolds folds hk
    have hcvstar : cvCand env ctx nstar folds = some s0 := by
      unfold cvCand
      exact meanQ_const
        (cvLogLs_ne_nil (fun X L => hfitstar X L)
          (fun a b c d => hscore nstar a b c d) hfmem hrow)
        (cvLogLs_mem_const (fun a b c d => hscore nstar a b c d) folds)
    refine congrArg Except.ok ?_
    rw [hrange, List.map_append, List.map_cons, hcvstar]
    have hupd : runBestGT ((-100000 : ℚ), ctx.min_n_components)
        (List.map (fun n => (n, cvCand env ctx n folds)) l1 ++
          (nstar, some s0) ::
            List.map (fun n => (n, cvCand env ctx n folds)) l2)
        = (s0, nstar) := by
      refine runBestGT_single_update ?_ ?_ hcv
      · intro it hit
        rcases List.mem_map.mp hit with ⟨n, hn, rfl⟩
        show cvCand env ctx n folds = none
        unfold cvCand
        rw [cvLogLs_of_unfit (hfitoff n (hne1 n hn)) folds]
        rfl
      · intro it hit
        rcases List.mem_map.mp hit with ⟨n, hn, rfl⟩
        show cvCand env ctx n folds = none
        unfold cvCand
        rw [cvLogLs_of_unfit (hfitoff n (hne2 n hn)) folds]
        rfl
    rw [hupd]
    exact hbase

/-- C6 (witness): on the two-word corpus where only `n = 2` fits and every
score is 0, all three searching selectors return the 2-state model. -/
theorem lone_fitting_candidate_selected_amended_witness :
    bicSelect envLoneFit ctxTwoWords =
      some ⟨2, ctxTwoWords.X, ctxTwoWords.lengths⟩ ∧
    dicSelect envLoneFit ctxTwoWords =
      some ⟨2, ctxTwoWords.X, ctxTwoWords.lengths⟩ ∧
    cvSelect envLoneFit ctxTwoWords =
      Except.ok (some ⟨2, ctxTwoWords.X, ctxTwoWords.lengths⟩) := by
  refine lone_fitting_candidate_selected_amended envLoneFit ctxTwoWords 2 0
    [] [3] (fun n X L => rfl) (fun n Xt Lt Xs Ls => rfl) rfl
    (by decide) (by decide) ?_ (by norm_num [envLoneFit, ctxTwoWords])
    (by norm_num) (by decide) ?_
  · intro h
    have h0 : otherWords ctxTwoWords = [("B", ([[5]], [1]))] := rfl
    rw [h0] at h
    exact List.noConfusion h
  · intro folds hk
    have h0 : kfoldSplit (cvSplitCount ctxTwoWords.sequences)
        ctxTwoWords.sequences.length =
        Except.ok [([1], [0]), ([0], [1])] := rfl
    rw [h0] at hk
    obtain rfl := Except.ok.inj hk
    refine ⟨([1], [0]), by decide, by decide⟩

end ASL
